import Mathlib

/-!
Shallow embedding of the core of the home-assistant-bridge-service
repository, and proofs about it.

Components embedded (from src/app):
* `cache/manager.py` — `CacheManager` over `cachetools.TTLCache`
  (time-to-live named caches with insertion-order eviction);
* `auth/middleware.py` — `RateLimiter.is_allowed` (sliding-window
  rate limiting over a per-key bucket map);
* `queue/priority_queue.py` — `PriorityQueue.add_request`,
  `_process_queue` and `PriorityTask.__lt__`;
* `clients/websocket.py` — `connect`, `subscribe_events`,
  `get_states`, `call_service`, `_message_handler` dispatch,
  `_handle_event`, `_handle_state_changed`, `_handle_service_event`,
  `_should_process_entity`, `_attempt_reconnect`.

Timestamps and delays are modelled as rationals (Python floats carry
exact decimal literals in every scenario of interest); machine-level
float rounding is irrelevant to the claims treated here.
-/

namespace HABridge

/-! ## Cache store: `cachetools.TTLCache` and `CacheManager`

`cachetools.TTLCache` keeps, besides the key-value dict, a linked
list of entries in insertion order (re-insertion of an existing key
unlinks and re-appends it; plain reads do not touch the list).  Each
link carries `expires = insertion_time + ttl`.  Since the ttl is one
constant per cache, the list is also sorted by expiry, and the
library's `expire` walks it from the front dropping entries with
`expires <= now`.  Eviction on overflow (`popitem`) removes the
front (oldest-inserted, non-expired) link.  We embed the list of
links directly; values are an arbitrary type `V`.
-/

/-- One entry of a TTL cache: key, payload, and absolute expiry time
(`insertion time + ttl`). -/
structure CacheEntry (V : Type) where
  key : String
  value : V
  expires : ℚ
deriving DecidableEq, Repr

/-- A single named cache: `cachetools.TTLCache(maxsize, ttl)`.
`links` is the insertion-ordered list of live-or-expired entries,
oldest first (the library's linked list of links). -/
structure TTLCache (V : Type) where
  maxsize : Nat
  ttl : ℚ
  links : List (CacheEntry V)
deriving DecidableEq, Repr

/-- `TTLCache.expire`: drop entries from the front while
`expires <= now` (the library walks the expiry-ordered link list
from its head). -/
def ttlExpire {V : Type} (c : TTLCache V) (now : ℚ) : TTLCache V :=
  { c with links := c.links.dropWhile (fun e => decide (e.expires ≤ now)) }

/-- `TTLCache.__getitem__` via `Cache.get`: find the entry for the
key; return its value unless it is expired (`not (now < expires)`);
a miss or an expired hit yields `none`.  Reads do not mutate the
cache. -/
def ttlGet {V : Type} (c : TTLCache V) (now : ℚ) (k : String) : Option V :=
  match c.links.find? (fun e => e.key == k) with
  | some e => if now < e.expires then some e.value else none
  | none => none

/-- Removal of a key from the link list (`dict` deletion: at most one
entry per key exists in well-formed states; we remove every entry
with the key). -/
def eraseKey {V : Type} (l : List (CacheEntry V)) (k : String) : List (CacheEntry V) :=
  l.filter (fun e => !(e.key == k))

/-- `TTLCache.__setitem__`: first `expire(now)`; then, if the key is
new and the cache would overflow, `Cache.__setitem__` pops the
oldest remaining entries until there is room; finally the (re-)linked
entry is appended at the back with `expires = now + ttl`.  An
existing key is unlinked and re-appended without any eviction. -/
def ttlSet {V : Type} (c : TTLCache V) (now : ℚ) (k : String) (v : V) : TTLCache V :=
  let l1 := (ttlExpire c now).links
  if l1.any (fun e => e.key == k) then
    { c with links := eraseKey l1 k ++ [⟨k, v, now + c.ttl⟩] }
  else
    let l2 := if c.maxsize < l1.length + 1 then l1.drop (l1.length + 1 - c.maxsize) else l1
    { c with links := l2 ++ [⟨k, v, now + c.ttl⟩] }

/-- `TTLCache.__contains__`: the key is present and not expired. -/
def ttlContains {V : Type} (c : TTLCache V) (now : ℚ) (k : String) : Bool :=
  match c.links.find? (fun e => e.key == k) with
  | some e => decide (now < e.expires)
  | none => false

/-- `CacheManager.delete` body on one cache: `if key in cache: del
cache[key]; return True` else `False`. -/
def ttlDelete {V : Type} (c : TTLCache V) (now : ℚ) (k : String) : Bool × TTLCache V :=
  if ttlContains c now k then (true, { c with links := eraseKey c.links k })
  else (false, c)

/-- Whether the first list is an initial segment of the second. -/
def charsLeading : List Char → List Char → Bool
  | [], _ => true
  | _ :: _, [] => false
  | p :: ps, q :: qs => p == q && charsLeading ps qs

/-- Whether the first list occurs contiguously inside the second. -/
def charsInside (pat : List Char) : List Char → Bool
  | [] => pat.isEmpty
  | c :: rest => charsLeading pat (c :: rest) || charsInside pat rest

/-- Substring containment, Python's `pattern in str(key)`. -/
def strContains (s pat : String) : Bool :=
  charsInside pat.toList s.toList

/-- `CacheManager.invalidate_pattern` body on one cache: collect the
(non-expired, as iterated by `TTLCache.keys()`) keys containing the
pattern, delete each, and return the count. -/
def ttlInvalidate {V : Type} (c : TTLCache V) (now : ℚ) (pat : String) : Nat × TTLCache V :=
  let doomed := c.links.filter (fun e => decide (now < e.expires) && strContains e.key pat)
  (doomed.length,
   { c with links := c.links.filter (fun e => !(decide (now < e.expires) && strContains e.key pat)) })

/-- `CacheManager`: a family of named `TTLCache`s. -/
structure CacheManager (V : Type) where
  caches : List (String × TTLCache V)
deriving DecidableEq, Repr

/-- Lookup of a named cache (`self.caches` dict access). -/
def findCache {V : Type} (m : CacheManager V) (name : String) : Option (TTLCache V) :=
  (m.caches.find? (fun p => p.1 == name)).map Prod.snd

/-- Replace the state of one named cache. -/
def putCache {V : Type} (m : CacheManager V) (name : String) (c : TTLCache V) : CacheManager V :=
  ⟨m.caches.map (fun p => if p.1 == name then (name, c) else p)⟩

/-- `CacheManager.get`: `None` for an unknown cache, else the TTL
read. -/
def cmGet {V : Type} (m : CacheManager V) (now : ℚ) (name k : String) : Option V :=
  match findCache m name with
  | none => none
  | some c => ttlGet c now k

/-- `CacheManager.set`: a silent no-op for an unknown cache, else the
TTL write. -/
def cmSet {V : Type} (m : CacheManager V) (now : ℚ) (name k : String) (v : V) : CacheManager V :=
  match findCache m name with
  | none => m
  | some c => putCache m name (ttlSet c now k v)

/-- `CacheManager.delete`: `False` for an unknown cache, else the TTL
delete. -/
def cmDelete {V : Type} (m : CacheManager V) (now : ℚ) (name k : String) : Bool × CacheManager V :=
  match findCache m name with
  | none => (false, m)
  | some c =>
    let r := ttlDelete c now k
    (r.1, putCache m name r.2)

/-- `CacheManager.clear` with a cache name: empty that cache. -/
def cmClear {V : Type} (m : CacheManager V) (name : String) : CacheManager V :=
  match findCache m name with
  | none => m
  | some c => putCache m name { c with links := [] }

/-- `CacheManager.invalidate_pattern`: 0 for an unknown cache, else
the TTL pattern invalidation. -/
def cmInvalidatePattern {V : Type} (m : CacheManager V) (now : ℚ) (name pat : String) :
    Nat × CacheManager V :=
  match findCache m name with
  | none => (0, m)
  | some c =>
    let r := ttlInvalidate c now pat
    (r.1, putCache m name r.2)

/-! ## Admission gate: `auth/middleware.py` `RateLimiter`

`rate_limit_storage[key]` is a dict mapping a timestamp (stored as
`str(time.time())` and read back with `float(...)`, an exact
round-trip) to a count of requests recorded at that timestamp.  We
embed one key's storage as an association list of
(timestamp, count) pairs.
-/

/-- Rate limiter configuration (`max_requests`, `window_seconds`). -/
structure RateLimiter where
  maxRequests : Nat
  windowSeconds : ℚ
deriving DecidableEq, Repr

/-- Dict write `storage[ts] = storage.get(ts, 0) + 1`: bump an
existing bucket or append a fresh one. -/
def bumpBucket (store : List (ℚ × Nat)) (t : ℚ) : List (ℚ × Nat) :=
  if store.any (fun p => p.1 == t) then
    store.map (fun p => if p.1 == t then (p.1, p.2 + 1) else p)
  else store ++ [(t, 1)]

/-- `RateLimiter.is_allowed` for one key: purge buckets at or before
`now - window`, sum the remaining counts, refuse when the sum has
reached the maximum, otherwise record the request and allow it.
Returns the verdict and the key's updated storage. -/
def isAllowed (rl : RateLimiter) (store : List (ℚ × Nat)) (now : ℚ) :
    Bool × List (ℚ × Nat) :=
  let windowStart := now - rl.windowSeconds
  let cleaned := store.filter (fun p => decide (windowStart < p.1))
  let current := (cleaned.map Prod.snd).sum
  if rl.maxRequests ≤ current then (false, cleaned)
  else (true, bumpBucket cleaned now)

/-- Fold `is_allowed` over a list of arrival times, collecting the
verdicts. -/
def runCalls (rl : RateLimiter) : List ℚ → List (ℚ × Nat) → List Bool × List (ℚ × Nat)
  | [], store => ([], store)
  | t :: ts, store =>
    let r := isAllowed rl store t
    let rest := runCalls rl ts r.2
    (r.1 :: rest.1, rest.2)

/-- The number of recorded requests whose timestamp lies inside the
trailing window ending at `now`. -/
def windowCount (store : List (ℚ × Nat)) (now w : ℚ) : Nat :=
  ((store.filter (fun p => decide (now - w < p.1))).map Prod.snd).sum

/-- The total number of recorded requests in a storage (the sum of
all bucket counts). -/
def totalCount (store : List (ℚ × Nat)) : Nat :=
  (store.map Prod.snd).sum

/-- Storages reachable for one key by a sequence of `is_allowed`
calls at nondecreasing times, starting from the empty storage; the
second index is the time of the latest call. -/
inductive RLReach (rl : RateLimiter) : List (ℚ × Nat) → ℚ → Prop where
  | init (t : ℚ) : RLReach rl [] t
  | step {s : List (ℚ × Nat)} {t : ℚ} (t2 : ℚ) :
      RLReach rl s t → t ≤ t2 → RLReach rl (isAllowed rl s t2).2 t2

/-! ## Request scheduler: `queue/priority_queue.py`

`PriorityQueue.add_request` wraps the callable in a `PriorityTask`,
pushes it on a `heapq` heap and immediately awaits
`_process_queue`, which returns `None` when the concurrency limit is
saturated and otherwise pops the heap minimum — not necessarily the
task just submitted — runs it, and hands that task's result back to
the submitter.  When a run finishes with pending tasks left, a
detached `asyncio.create_task(self._process_queue())` continues
processing with nobody receiving the results.

We embed a task by its identity, priority value
(`Priority`: CRITICAL 0 < HIGH 1 < NORMAL 2 < LOW 3) and creation
time, and split `add_request` at its `await` points into atomic
steps, so that interleavings of concurrent submitters can be
replayed: `submitEnqueue` (the heappush), `processQueueStart`
(the guard, the heappop and the slot acquisition) and
`processQueueFinish` (slot release after the task's coroutine
completed).  `heapq` pops a least element of the heap under
`PriorityTask.__lt__`; with distinct (priority, created_at) pairs
that order is total, so the pop is the unique minimum, which
`popMin` computes (keeping the leftmost of ties).
-/

/-- `Priority` enum values: lower value = served first. -/
def priorityCRITICAL : Nat := 0

/-- `Priority.HIGH.value`. -/
def priorityHIGH : Nat := 1

/-- `Priority.NORMAL.value`. -/
def priorityNORMAL : Nat := 2

/-- `Priority.LOW.value`. -/
def priorityLOW : Nat := 3

/-- `PriorityTask`: submission identity, priority value and creation
timestamp (`request_id`, `priority.value`, `created_at`). -/
structure PTask where
  id : Nat
  priority : Nat
  createdAt : ℚ
deriving DecidableEq, Repr

/-- `PriorityTask.__lt__`: by priority value, then by creation
time. -/
def taskLT (a b : PTask) : Bool :=
  if a.priority != b.priority then decide (a.priority < b.priority)
  else decide (a.createdAt < b.createdAt)

/-- Pop a least element (leftmost among `taskLT`-ties) and return it
with the remaining tasks — the `heapq.heappop` contract. -/
def popMin : List PTask → Option (PTask × List PTask)
  | [] => none
  | t :: ts =>
    match popMin ts with
    | none => some (t, [])
    | some (m, rest) => if taskLT m t then some (m, t :: rest) else some (t, ts)

/-- `PriorityQueue` state: the heap contents, the running-task count,
the concurrency limit and the shutdown flag. -/
structure PQState where
  queue : List PTask
  runningTasks : Nat
  maxConcurrent : Nat
  shutdownFlag : Bool
deriving DecidableEq, Repr

/-- The `heapq.heappush` step of `add_request` (the heap as a bag;
order is imposed by `popMin` at pop time). -/
def submitEnqueue (s : PQState) (t : PTask) : PQState :=
  { s with queue := s.queue ++ [t] }

/-- The synchronous head of `_process_queue`: return (`None`) when
the queue is empty or the limit is saturated; otherwise pop the heap
minimum, take a slot, and start running that task.  The first
component is the task whose result the awaiting caller will
receive — `none` models the literal `return None`. -/
def processQueueStart (s : PQState) : Option PTask × PQState :=
  if s.queue.isEmpty || decide (s.maxConcurrent ≤ s.runningTasks) then (none, s)
  else
    match popMin s.queue with
    | some (t, q2) => (some t, { s with queue := q2, runningTasks := s.runningTasks + 1 })
    | none => (none, s)

/-- The tail of `_process_queue` once the popped task's coroutine has
completed: release the slot. -/
def processQueueFinish (s : PQState) : PQState :=
  { s with runningTasks := s.runningTasks - 1 }

/-- A whole `add_request` call that runs without interleaving: the
shutdown guard, the push, then `_process_queue` whose popped task (if
any) runs to completion before control returns.  Returns the task
whose result the submitter receives (`none` = the literal `None`). -/
def addRequestAtomic (s : PQState) (t : PTask) : Except String (Option PTask × PQState) :=
  if s.shutdownFlag then Except.error "Queue is shutting down"
  else
    let s1 := submitEnqueue s t
    let r := processQueueStart s1
    match r.1 with
    | none => Except.ok (none, r.2)
    | some t2 => Except.ok (some t2, processQueueFinish r.2)

/-! ## Event-stream client: `clients/websocket.py` -/

/-- Session state of `HomeAssistantWebSocketClient`: transport-open
flag (`self.websocket is not None`), `connected`, the correlation
counter `message_id`, the callback map `subscriptions` (we record
the ids that hold a callback), `active_subscriptions`
(event type ↦ subscribe message id), `reconnect_attempts` and
`should_reconnect`. -/
structure WSState where
  websocketOpen : Bool
  connected : Bool
  messageId : Nat
  subscriptions : List Nat
  activeSubscriptions : List (String × Nat)
  reconnectAttempts : Nat
  shouldReconnect : Bool
deriving DecidableEq, Repr

/-- The state `__init__` builds. -/
def initialWSState : WSState :=
  ⟨false, false, 1, [], [], 0, true⟩

/-- Messages the client sends over the transport. -/
inductive OutMsg where
  | auth : OutMsg
  | subscribeMsg (id : Nat) (eventType : String) : OutMsg
  | getStatesMsg (id : Nat) : OutMsg
  | callServiceMsg (id : Nat) (domain service : String) : OutMsg
deriving DecidableEq, Repr

/-- Dict write `active_subscriptions[event_type] = message_id`. -/
def upsertSub (l : List (String × Nat)) (k : String) (v : Nat) : List (String × Nat) :=
  if l.any (fun p => p.1 == k) then l.map (fun p => if p.1 == k then (k, v) else p)
  else l ++ [(k, v)]

/-- `subscribe_events`: raise when not connected (before any send or
mutation — the first component is the raised/returned value, the
second the session state when control leaves the method, the third
the messages sent); otherwise take a fresh correlation id, send the
subscribe message, record the callback if one was supplied, and
track the subscription. -/
def subscribeEvents (s : WSState) (eventType : String) (hasCallback : Bool) :
    Except String Nat × WSState × List OutMsg :=
  if !s.connected then (Except.error "WebSocket not connected", s, [])
  else
    let mid := s.messageId
    let s1 := { s with messageId := s.messageId + 1 }
    let out := [OutMsg.subscribeMsg mid eventType]
    let s2 := if hasCallback then { s1 with subscriptions := s1.subscriptions ++ [mid] } else s1
    let s3 := { s2 with activeSubscriptions := upsertSub s2.activeSubscriptions eventType mid }
    (Except.ok mid, s3, out)

/-- `get_states`: raise when not connected (before any send or
mutation); otherwise take a fresh id, send, and wait for the
response with that id — `script` lists the ids of `result` messages
the transport will deliver; a missing id models the
`_wait_for_response` timeout. -/
def getStates (s : WSState) (script : List Nat) :
    Except String Nat × WSState × List OutMsg :=
  if !s.connected then (Except.error "WebSocket not connected", s, [])
  else
    let mid := s.messageId
    let s1 := { s with messageId := s.messageId + 1 }
    let out := [OutMsg.getStatesMsg mid]
    if script.contains mid then (Except.ok mid, s1, out)
    else (Except.error "Timeout waiting for response", s1, out)

/-- `call_service`: raise when not connected (before any send or
mutation); otherwise take a fresh id, send, and wait for the
response with that id. -/
def callService (s : WSState) (domain service : String) (script : List Nat) :
    Except String Nat × WSState × List OutMsg :=
  if !s.connected then (Except.error "WebSocket not connected", s, [])
  else
    let mid := s.messageId
    let s1 := { s with messageId := s.messageId + 1 }
    let out := [OutMsg.callServiceMsg mid domain service]
    if script.contains mid then (Except.ok mid, s1, out)
    else (Except.error "Timeout waiting for response", s1, out)

/-- `connect`: open the transport (`transportOk = false` models
`websockets.connect` raising, caught and turned into `False`),
receive the first message, require `auth_required`, send the token,
receive the auth result, require `auth_ok`; only then set
`connected`, reset `reconnect_attempts`, and issue the three default
subscriptions.  `incoming` is the list of the types of messages the
transport delivers to `recv` (an exhausted list models `recv`
raising, caught and turned into `False`).  Returns what `connect`
returns, the resulting session state, and the messages sent. -/
def connect (s : WSState) (transportOk : Bool) (incoming : List String) :
    Bool × WSState × List OutMsg :=
  if !transportOk then (false, s, [])
  else
    let s0 := { s with websocketOpen := true }
    match incoming with
    | [] => (false, s0, [])
    | m1 :: rest =>
      if m1 == "auth_required" then
        match rest with
        | [] => (false, s0, [OutMsg.auth])
        | m2 :: _ =>
          if m2 == "auth_ok" then
            let s1 := { s0 with connected := true, reconnectAttempts := 0 }
            let r1 := subscribeEvents s1 "state_changed" false
            let r2 := subscribeEvents r1.2.1 "service_registered" false
            let r3 := subscribeEvents r2.2.1 "service_removed" false
            (true, r3.2.1, OutMsg.auth :: (r1.2.2 ++ r2.2.2 ++ r3.2.2))
          else (false, s0, [OutMsg.auth])
      else (false, s0, [])

/-- `is_connected`: `self.connected and self.websocket is not
None`. -/
def isConnected (s : WSState) : Bool :=
  s.connected && s.websocketOpen

/-- `_attempt_reconnect` backoff base:
`min(2 ** reconnect_attempts, WEBSOCKET_RECONNECT_MAX_DELAY)`
computed after the attempt counter was incremented to `n`. -/
def backoffBase (n : Nat) (maxDelay : ℚ) : ℚ :=
  min ((2 : ℚ) ^ n) maxDelay

/-- `_attempt_reconnect` wait time: the base delay plus the sampled
jitter `random.uniform(0, 0.1 * base_delay)`. -/
def backoffWait (n : Nat) (maxDelay jitter : ℚ) : ℚ :=
  backoffBase n maxDelay + jitter

/-- The head of `_attempt_reconnect`: stop (`none`) when a positive
maximum attempt count has been reached; otherwise increment the
counter to `n` and sleep `backoffWait n maxDelay jitter` before
calling `connect` again. -/
def attemptReconnectDelay (s : WSState) (maxAttempts : Nat) (maxDelay jitter : ℚ) :
    Option (Nat × ℚ) :=
  if 0 < maxAttempts && decide (maxAttempts ≤ s.reconnectAttempts) then none
  else
    let n := s.reconnectAttempts + 1
    some (n, backoffWait n maxDelay jitter)

/-! ## Event-driven cache policy: `_handle_event`,
`_handle_state_changed`, `_handle_service_event` -/

/-- The settings `_handle_state_changed` and
`_should_process_entity` consult. -/
structure EventSettings where
  filterEnabled : Bool
  entityFilters : List String
  excludeDomains : List String
  updateCache : Bool
deriving DecidableEq, Repr

/-- `entity_id.split(".")[0]`: the domain of an entity id. -/
def domainOf (entityId : String) : String :=
  (entityId.splitOn ".").headD ""

/-- `_should_process_entity`: drop excluded domains; when an
inclusion list is configured, require an id-prefix match; otherwise
accept. -/
def shouldProcessEntity (cfg : EventSettings) (entityId : String) : Bool :=
  let domain := domainOf entityId
  if cfg.excludeDomains.contains domain then false
  else if !cfg.entityFilters.isEmpty then
    cfg.entityFilters.any (fun f => entityId.startsWith f)
  else true

/-- `_handle_state_changed`: return early when the entity id is empty
or there is no new state; apply the entity filter when enabled; then
either overwrite (`WEBSOCKET_UPDATE_CACHE`) or delete the per-entity
entry `get_state:<entity_id>` in the `states` cache; always delete
the aggregate `get_all_states` entry; finally pattern-invalidate
`states` keys containing `group:<domain>`.  (The update branch's
exception fallback never fires in this effect model, where the cache
write itself cannot raise.) -/
def handleStateChanged {V : Type} (cfg : EventSettings) (m : CacheManager V) (now : ℚ)
    (entityId : String) (newState : Option V) : CacheManager V :=
  if entityId == "" then m
  else
    match newState with
    | none => m
    | some v =>
      if cfg.filterEnabled && !shouldProcessEntity cfg entityId then m
      else
        let m1 :=
          if cfg.updateCache then cmSet m now "states" ("get_state:" ++ entityId) v
          else (cmDelete m now "states" ("get_state:" ++ entityId)).2
        let m2 := (cmDelete m1 now "states" "get_all_states").2
        let domain := domainOf entityId
        (cmInvalidatePattern m2 now "states" ("group:" ++ domain)).2

/-- The payload of an `event`-typed message. -/
structure EventData (V : Type) where
  eventType : String
  entityId : String
  newState : Option V
deriving DecidableEq, Repr

/-- `_handle_event`: route `state_changed` events to
`_handle_state_changed`; every other event type is only logged. -/
def handleEvent {V : Type} (cfg : EventSettings) (m : CacheManager V) (now : ℚ)
    (ev : EventData V) : CacheManager V :=
  if ev.eventType == "state_changed" then
    handleStateChanged cfg m now ev.entityId ev.newState
  else m

/-- `_handle_service_event`: clear the whole `services` cache. -/
def handleServiceEvent {V : Type} (m : CacheManager V) : CacheManager V :=
  cmClear m "services"

/-- One incoming transport message as classified by
`_message_handler`. -/
inductive InMessage (V : Type) where
  | event (ev : EventData V) : InMessage V
  | result (id : Nat) : InMessage V
  | pong : InMessage V
  | other (ty : String) : InMessage V
deriving DecidableEq, Repr

/-- The `_message_handler` dispatch for one message: `event` goes to
`_handle_event`; `result` and `pong` are logged or ignored; unknown
types are logged.  Only `event` messages can touch the cache. -/
def dispatchMessage {V : Type} (cfg : EventSettings) (m : CacheManager V) (now : ℚ) :
    InMessage V → CacheManager V
  | InMessage.event ev => handleEvent cfg m now ev
  | InMessage.result _ => m
  | InMessage.pong => m
  | InMessage.other _ => m

/-! ## Concrete fixtures used by the scenario theorems -/

/-- Successful handshake predicate on a `connect` transport script:
the transport opens and delivers `auth_required` then `auth_ok`. -/
def handshakeOk (transportOk : Bool) (incoming : List String) : Bool :=
  match transportOk, incoming with
  | true, m1 :: m2 :: _ => m1 == "auth_required" && m2 == "auth_ok"
  | _, _ => false

/-- An idle scheduler with concurrency limit 1
(`PriorityQueue(max_concurrent=1)`). -/
def pqInit : PQState := ⟨[], 0, 1, false⟩

/-- First submitter's task (NORMAL priority, created at time 1). -/
def taskA : PTask := ⟨1, priorityNORMAL, 1⟩

/-- Second submitter's task (NORMAL priority, created at time 2). -/
def taskB : PTask := ⟨2, priorityNORMAL, 2⟩

/-- Third submitter's task (LOW priority, created at time 3). -/
def taskC : PTask := ⟨3, priorityLOW, 3⟩

/-- Submitter A's `add_request` up to its `_process_queue` pop: A's
task starts running and occupies the single slot. -/
def stepA : Option PTask × PQState := processQueueStart (submitEnqueue pqInit taskA)

/-- Submitter B's `add_request` while A's task is still running. -/
def stepB : Option PTask × PQState := processQueueStart (submitEnqueue stepA.2 taskB)

/-- Submitter C's `add_request` after A's task finished but before
the detached continuation has dequeued B's pending task. -/
def stepC : Option PTask × PQState :=
  processQueueStart (submitEnqueue (processQueueFinish stepB.2) taskC)

/-- The LOW-priority task of the P3 scenario, submitted first. -/
def taskLow : PTask := ⟨1, priorityLOW, 1⟩

/-- The HIGH-priority task of the P3 scenario, submitted second. -/
def taskHigh : PTask := ⟨2, priorityHIGH, 2⟩

/-- The NORMAL-priority task of the P3 scenario, submitted third. -/
def taskNormal : PTask := ⟨3, priorityNORMAL, 3⟩

/-- P3 scenario, submission 1: the LOW task is popped and starts at
once (the queue held nothing else). -/
def p3Step1 : Option PTask × PQState := processQueueStart (submitEnqueue pqInit taskLow)

/-- P3 scenario, submission 2 while LOW runs: saturated, `None`. -/
def p3Step2 : Option PTask × PQState := processQueueStart (submitEnqueue p3Step1.2 taskHigh)

/-- P3 scenario, submission 3 while LOW runs: saturated, `None`. -/
def p3Step3 : Option PTask × PQState := processQueueStart (submitEnqueue p3Step2.2 taskNormal)

/-- P3 scenario: LOW finished; the detached `_process_queue` pops the
next task. -/
def p3Step4 : Option PTask × PQState := processQueueStart (processQueueFinish p3Step3.2)

/-- P3 scenario: that task finished; the detached `_process_queue`
pops the last one. -/
def p3Step5 : Option PTask × PQState := processQueueStart (processQueueFinish p3Step4.2)

/-- A `states` cache (default geometry `maxsize=2000`,
`ttl=STATES_CACHE_TTL=60`) holding an unrelated key that contains
the substring `light`, the aggregate entry, and a group view; all
entries live at time 0. -/
def cexMgr : CacheManager Nat :=
  ⟨[("states",
     ⟨2000, 60,
      [⟨"ambient_light", 7, 100⟩, ⟨"get_all_states", 9, 100⟩,
       ⟨"group:light:all", 5, 100⟩]⟩)]⟩

/-- Event settings with filtering off and the update strategy
(`WEBSOCKET_UPDATE_CACHE = True`). -/
def cexCfg : EventSettings := ⟨false, [], [], true⟩

/-- A manager whose `services` cache (default geometry
`maxsize=200`, `ttl=SERVICES_CACHE_TTL=1800`) holds a live entry at
time 0. -/
def svcMgr : CacheManager Nat :=
  ⟨[("services", ⟨200, 1800, [⟨"all_services", 4, 100⟩]⟩)]⟩

/-- The default event settings
(`WEBSOCKET_FILTER_ENABLED = True`,
`WEBSOCKET_EXCLUDE_DOMAINS = ["media_player", "camera"]`,
`WEBSOCKET_UPDATE_CACHE = True`). -/
def svcCfg : EventSettings := ⟨true, [], ["media_player", "camera"], true⟩

/-! ## Theorems -/

/-- `subscribe_events` on a connected client never touches the
`connected`, transport, or reconnect-counter fields. -/
theorem subscribeEvents_preserves (s : WSState) (et : String) (cb : Bool)
    (h : s.connected = true) :
    ((subscribeEvents s et cb).2.1).connected = s.connected ∧
    ((subscribeEvents s et cb).2.1).websocketOpen = s.websocketOpen ∧
    ((subscribeEvents s et cb).2.1).reconnectAttempts = s.reconnectAttempts := by
  cases cb <;> simp [subscribeEvents, h]

/-- Claim C10: a call to `subscribe_events`, `get_states` or
`call_service` while `connected` is false raises before sending
anything, leaving the session state (message-id counter and both
subscription maps) unchanged. -/
theorem ws_calls_require_connection (s : WSState) (et : String) (cb : Bool)
    (d sv : String) (script1 script2 : List Nat) (h : s.connected = false) :
    subscribeEvents s et cb = (Except.error "WebSocket not connected", s, []) ∧
    getStates s script1 = (Except.error "WebSocket not connected", s, []) ∧
    callService s d sv script2 = (Except.error "WebSocket not connected", s, []) := by
  refine ⟨?_, ?_, ?_⟩ <;> simp [subscribeEvents, getStates, callService, h]

/-- Witness for C10 at the freshly initialised client. -/
theorem ws_calls_require_connection_witness :
    initialWSState.connected = false ∧
    subscribeEvents initialWSState "state_changed" false =
      (Except.error "WebSocket not connected", initialWSState, []) ∧
    getStates initialWSState [] =
      (Except.error "WebSocket not connected", initialWSState, []) ∧
    callService initialWSState "light" "turn_on" [] =
      (Except.error "WebSocket not connected", initialWSState, []) := by
  refine ⟨rfl, ?_⟩
  exact ws_calls_require_connection initialWSState "state_changed" false
    "light" "turn_on" [] [] rfl

/-- Claim C6: starting from a disconnected client, `connect` returns
success exactly when the transport opens and delivers
`auth_required` then `auth_ok`, and `is_connected` becomes true in
exactly the same cases. -/
theorem ws_connect_handshake_contract (s : WSState) (tOk : Bool) (incoming : List String)
    (h : s.connected = false) :
    ((connect s tOk incoming).1 = true ↔ handshakeOk tOk incoming = true) ∧
    (isConnected (connect s tOk incoming).2.1 = true ↔ handshakeOk tOk incoming = true) := by
  cases tOk with
  | false => simp [connect, handshakeOk, isConnected, h]
  | true =>
    cases incoming with
    | nil => simp [connect, handshakeOk, isConnected, h]
    | cons m1 rest =>
      cases rest with
      | nil =>
        by_cases h1 : m1 = "auth_required" <;>
          simp [connect, handshakeOk, isConnected, h, h1]
      | cons m2 rest2 =>
        by_cases h1 : m1 = "auth_required"
        · by_cases h2 : m2 = "auth_ok"
          · simp [connect, handshakeOk, isConnected, h, h1, h2, subscribeEvents]
          · simp [connect, handshakeOk, isConnected, h, h1, h2]
        · simp [connect, handshakeOk, isConnected, h, h1]

/-- Witness for C6: the good script and a bad-first-message script at
the initial state. -/
theorem ws_connect_handshake_contract_witness :
    initialWSState.connected = false ∧
    ((connect initialWSState true ["auth_required", "auth_ok"]).1 = true ↔
      handshakeOk true ["auth_required", "auth_ok"] = true) ∧
    ((connect initialWSState true ["pong"]).1 = true ↔
      handshakeOk true ["pong"] = true) := by
  refine ⟨rfl, ?_, ?_⟩
  · exact (ws_connect_handshake_contract initialWSState true
      ["auth_required", "auth_ok"] rfl).1
  · exact (ws_connect_handshake_contract initialWSState true ["pong"] rfl).1

/-- Claim C8: a reconnect attempt whose incremented attempt counter
is `n` sleeps `min(2^n, maxDelay) + jitter` with
`0 ≤ jitter ≤ base/10`, so the wait lies in
`[base, 1.1 * base]` — in `[2^n, 1.1 * 2^n]` whenever `2^n` is under
the cap — and the attempt counter is reset to 0 by any successful
authentication inside `connect`. -/
theorem ws_reconnect_backoff (s : WSState) (maxAttempts : Nat) (maxDelay jitter : ℚ)
    (hstop : maxAttempts = 0 ∨ s.reconnectAttempts < maxAttempts)
    (hj0 : 0 ≤ jitter)
    (hj1 : jitter ≤ 1 / 10 * backoffBase (s.reconnectAttempts + 1) maxDelay) :
    attemptReconnectDelay s maxAttempts maxDelay jitter =
      some (s.reconnectAttempts + 1,
        backoffWait (s.reconnectAttempts + 1) maxDelay jitter) ∧
    1 ≤ s.reconnectAttempts + 1 ∧
    backoffBase (s.reconnectAttempts + 1) maxDelay =
      min ((2 : ℚ) ^ (s.reconnectAttempts + 1)) maxDelay ∧
    backoffBase (s.reconnectAttempts + 1) maxDelay ≤
      backoffWait (s.reconnectAttempts + 1) maxDelay jitter ∧
    backoffWait (s.reconnectAttempts + 1) maxDelay jitter ≤
      11 / 10 * backoffBase (s.reconnectAttempts + 1) maxDelay ∧
    ((2 : ℚ) ^ (s.reconnectAttempts + 1) ≤ maxDelay →
      (2 : ℚ) ^ (s.reconnectAttempts + 1) ≤
        backoffWait (s.reconnectAttempts + 1) maxDelay jitter ∧
      backoffWait (s.reconnectAttempts + 1) maxDelay jitter ≤
        11 / 10 * (2 : ℚ) ^ (s.reconnectAttempts + 1)) ∧
    (∀ (s2 : WSState) (tail : List String),
      ((connect s2 true ("auth_required" :: "auth_ok" :: tail)).2.1).reconnectAttempts = 0) := by
  refine ⟨?_, Nat.le_add_left 1 _, rfl, ?_, ?_, ?_, ?_⟩
  · rcases hstop with h0 | hlt
    · simp [attemptReconnectDelay, h0]
    · simp [attemptReconnectDelay, Nat.not_le_of_lt hlt]
  · unfold backoffWait; linarith
  · unfold backoffWait; linarith
  · intro hcap
    have hbase : backoffBase (s.reconnectAttempts + 1) maxDelay =
        (2 : ℚ) ^ (s.reconnectAttempts + 1) := min_eq_left hcap
    constructor
    · unfold backoffWait; rw [hbase]; linarith
    · have := hj1
      rw [hbase] at this
      unfold backoffWait; rw [hbase]; linarith
  · intro s2 tail
    simp [connect, subscribeEvents]

/-- Witness for C8: first reconnect attempt (`n = 1`) with a 60 s
cap, zero jitter, unlimited attempts. -/
theorem ws_reconnect_backoff_witness :
    ((0 : Nat) = 0 ∨ initialWSState.reconnectAttempts < 0) ∧
    (0 : ℚ) ≤ 0 ∧
    ((0 : ℚ) ≤ 1 / 10 * backoffBase (initialWSState.reconnectAttempts + 1) 60) ∧
    attemptReconnectDelay initialWSState 0 60 0 =
      some (initialWSState.reconnectAttempts + 1,
        backoffWait (initialWSState.reconnectAttempts + 1) 60 0) := by
  refine ⟨Or.inl rfl, le_refl 0, by with_unfolding_all decide, ?_⟩
  exact (ws_reconnect_backoff initialWSState 0 60 0 (Or.inl rfl) (le_refl 0)
    (by with_unfolding_all decide)).1

/-- Claim C1 (code bug): with concurrency limit 1, submitter B's
`add_request` while A's task occupies the slot returns `None`
although B's callable was never executed (it is still queued), and
submitter C's `add_request`, arriving after A finished but before
the detached continuation ran, receives the result of B's pending
task rather than of its own. -/
theorem scheduler_submit_result_misdelivery :
    stepA.1 = some taskA ∧
    stepB.1 = none ∧
    stepB.2.queue = [taskB] ∧
    stepC.1 = some taskB ∧
    taskB ≠ taskC := by
  with_unfolding_all decide

/-- Claim C7 (code bug): units submitted with priorities
[LOW, HIGH, NORMAL] under concurrency limit 1 begin execution in
order LOW, HIGH, NORMAL — not HIGH, NORMAL, LOW — both when the
submissions interleave (the first submission immediately pops its
own just-pushed task) and when they are awaited sequentially
(`addRequestAtomic` runs the submitted task at once on an idle
queue). -/
theorem scheduler_priority_order_scenario :
    p3Step1.1 = some taskLow ∧
    p3Step2.1 = none ∧
    p3Step3.1 = none ∧
    p3Step4.1 = some taskHigh ∧
    p3Step5.1 = some taskNormal ∧
    addRequestAtomic pqInit taskLow = Except.ok (some taskLow, pqInit) := by
  refine ⟨?_, ?_, ?_, ?_, ?_, ?_⟩ <;> first
    | with_unfolding_all decide
    | with_unfolding_all rfl

set_option maxRecDepth 4000 in
/-- Claim C3 (code bug): an incoming `event` message with event type
`service_registered` or `service_removed` leaves the caches — in
particular the populated `services` cache — untouched, because
`_handle_event` only routes `state_changed`; `_handle_service_event`
(which would clear the `services` cache, as shown by the last
conjunct) is never invoked by the dispatch path. -/
theorem service_event_dispatch_no_invalidation :
    cmGet svcMgr 0 "services" "all_services" = some 4 ∧
    dispatchMessage svcCfg svcMgr 0 (InMessage.event ⟨"service_registered", "", none⟩) = svcMgr ∧
    dispatchMessage svcCfg svcMgr 0 (InMessage.event ⟨"service_removed", "", none⟩) = svcMgr ∧
    cmGet (handleServiceEvent svcMgr) 0 "services" "all_services" = none := by
  with_unfolding_all decide

/-- In a link list with no duplicate keys, the key search finds
exactly the member entry carrying that key. -/
theorem find?_key_of_nodup {V : Type} {l : List (CacheEntry V)}
    (h : (l.map CacheEntry.key).Nodup) {e : CacheEntry V} (he : e ∈ l) :
    l.find? (fun x => x.key == e.key) = some e := by
  induction l with
  | nil => cases he
  | cons a l ih =>
    rcases List.mem_cons.mp he with rfl | he2
    · simp [List.find?]
    · have hmem : e.key ∈ l.map CacheEntry.key := List.mem_map_of_mem CacheEntry.key he2
      have hne : ¬ (a.key == e.key) = true := by
        intro hEq
        exact (List.nodup_cons.mp h).1 (beq_iff_eq.mp hEq ▸ hmem)
      rw [List.find?]
      rw [Bool.eq_false_iff.mpr hne]
      exact ih (List.nodup_cons.mp h).2 he2

/-- Claim C4: for a cache at soft capacity whose entries are all
live and whose keys do not include the new key, inserting the new
key evicts exactly the first-inserted entry — even though that
entry's value was just read, since reads do not touch the link
list (first conjunct: the read on the very same state whose
insertion behaviour the second conjunct describes). -/
theorem cache_insertion_order_eviction {V : Type} (c : TTLCache V) (e : CacheEntry V)
    (rest : List (CacheEntry V)) (now : ℚ) (k : String) (v : V)
    (hlinks : c.links = e :: rest)
    (hlive : ∀ x ∈ c.links, now < x.expires)
    (hcap : c.links.length = c.maxsize)
    (hfresh : ∀ x ∈ c.links, x.key ≠ k) :
    ttlGet c now e.key = some e.value ∧
    (ttlSet c now k v).links = rest ++ [⟨k, v, now + c.ttl⟩] := by
  have hliveE : now < e.expires := hlive e (hlinks ▸ List.mem_cons_self e rest)
  constructor
  · rw [ttlGet, hlinks]
    simp [List.find?, hliveE]
  · have hexp : (ttlExpire c now).links = e :: rest := by
      simp [ttlExpire, hlinks, List.dropWhile_cons, not_le.mpr hliveE]
    have hany : ((e :: rest).any (fun x => x.key == k)) = false := by
      refine List.any_eq_false.mpr ?_
      intro x hx
      simpa using hfresh x (hlinks ▸ hx)
    have hlen : c.maxsize = (e :: rest).length := by rw [← hcap, hlinks]
    have hdrop : (e :: rest).length + 1 - (e :: rest).length = 1 := by omega
    simp only [ttlSet, hexp, hany, Bool.false_eq_true, if_false, hlen, hdrop,
      Nat.lt_succ_self, if_true]
    simp [List.drop]

/-- Witness for C4: a two-entry cache of capacity 2, all live at
time 0; reading the oldest key still returns it, and inserting a
third distinct key evicts it. -/
theorem cache_insertion_order_eviction_witness :
    ((⟨2, 10, [⟨"a", 1, 50⟩, ⟨"b", 2, 50⟩]⟩ : TTLCache Nat).links =
      ⟨"a", 1, 50⟩ :: [⟨"b", 2, 50⟩]) ∧
    ttlGet (⟨2, 10, [⟨"a", 1, 50⟩, ⟨"b", 2, 50⟩]⟩ : TTLCache Nat) 0 "a" = some 1 ∧
    (ttlSet (⟨2, 10, [⟨"a", 1, 50⟩, ⟨"b", 2, 50⟩]⟩ : TTLCache Nat) 0 "c" 3).links =
      [⟨"b", 2, 50⟩] ++ [⟨"c", 3, 0 + 10⟩] := by
  have h := cache_insertion_order_eviction
    (⟨2, 10, [⟨"a", 1, 50⟩, ⟨"b", 2, 50⟩]⟩ : TTLCache Nat)
    ⟨"a", 1, 50⟩ [⟨"b", 2, 50⟩] 0 "c" 3 rfl
    (by with_unfolding_all decide) rfl (by with_unfolding_all decide)
  exact ⟨rfl, h.1, h.2⟩

/-- Claim C9: in a cache with distinct keys, a read of an entry whose
age exceeds the ttl (`ttl < now - insertionTime`, with
`insertionTime = expires - ttl`) yields `none` even though the entry
was never deleted, and any successful read returns the stored value
of an entry whose age is at most the ttl. -/
theorem cache_ttl_expiry {V : Type} (c : TTLCache V) (now : ℚ)
    (hnodup : (c.links.map CacheEntry.key).Nodup) :
    (∀ e ∈ c.links, c.ttl < now - (e.expires - c.ttl) → ttlGet c now e.key = none) ∧
    (∀ (k : String) (v : V), ttlGet c now k = some v →
      ∃ e, e ∈ c.links ∧ e.key = k ∧ e.value = v ∧ now - (e.expires - c.ttl) ≤ c.ttl) := by
  constructor
  · intro e he hstale
    rw [ttlGet, find?_key_of_nodup hnodup he]
    have hexp : ¬ now < e.expires := by linarith
    simp [hexp]
  · intro k v hget
    rw [ttlGet] at hget
    cases hfind : c.links.find? (fun x => x.key == k) with
    | none => rw [hfind] at hget; cases hget
    | some e =>
      rw [hfind] at hget
      have hget2 : (if now < e.expires then some e.value else none) = some v := hget
      by_cases hlt : now < e.expires
      · rw [if_pos hlt] at hget2
        have hp : e.key = k := by
          have h2 := List.find?_some hfind
          simpa using h2
        refine ⟨e, List.mem_of_find?_eq_some hfind,
          hp, Option.some.inj hget2, by linarith⟩
      · rw [if_neg hlt] at hget2
        cases hget2

/-- Witness for C9: a one-entry cache (ttl 10, inserted at time -5,
expiry 5) read at time 20, well past its ttl. -/
theorem cache_ttl_expiry_witness :
    (((⟨2, 10, [⟨"a", 1, 5⟩]⟩ : TTLCache Nat).links.map CacheEntry.key).Nodup) ∧
    ttlGet (⟨2, 10, [⟨"a", 1, 5⟩]⟩ : TTLCache Nat) 20 "a" = none := by
  refine ⟨by simp, ?_⟩
  exact (cache_ttl_expiry (⟨2, 10, [⟨"a", 1, 5⟩]⟩ : TTLCache Nat) 20 (by simp)).1
    ⟨"a", 1, 5⟩ (by simp) (by with_unfolding_all decide)

/-- Replacing the cache stored under a name that is present makes
lookups of that name return the replacement. -/
theorem findCache_putCache {V : Type} (m : CacheManager V) (name : String)
    (c c' : TTLCache V) (h : findCache m name = some c) :
    findCache (putCache m name c') name = some c' := by
  obtain ⟨l⟩ := m
  rw [findCache] at h
  rw [findCache, putCache]
  induction l with
  | nil => simp at h
  | cons a l ih =>
    by_cases ha : a.1 = name
    · simp [List.find?_cons_of_pos, ha]
    · have hb : ¬ (a.1 == name) = true := by simpa using ha
      rw [List.find?_cons_of_neg (p := fun q : String × TTLCache V => q.1 == name) _ hb] at h
      have := ih h
      simp only [List.map_cons, Bool.eq_false_iff.mpr hb, Bool.false_eq_true, if_false]
      rw [List.find?_cons_of_neg (p := fun q : String × TTLCache V => q.1 == name) _ hb]
      exact this

/-- A key search that succeeds on a list still succeeds — with the
same entry — on a filtered version, provided the found entry
survives the filter. -/
theorem find?_filter_of_stable {V : Type} {l : List (CacheEntry V)} {k : String}
    {e : CacheEntry V} (q : CacheEntry V → Bool)
    (hfind : l.find? (fun x => x.key == k) = some e) (he : q e = true) :
    (l.filter q).find? (fun x => x.key == k) = some e := by
  induction l with
  | nil => cases hfind
  | cons a l ih =>
    by_cases ha : (a.key == k) = true
    · rw [List.find?_cons_of_pos (p := fun x : CacheEntry V => x.key == k) _ ha] at hfind
      obtain rfl := Option.some.inj hfind
      rw [List.filter_cons_of_pos he]
      exact List.find?_cons_of_pos (p := fun x : CacheEntry V => x.key == k) _ ha
    · rw [List.find?_cons_of_neg (p := fun x : CacheEntry V => x.key == k) _ ha] at hfind
      by_cases hqa : q a = true
      · rw [List.filter_cons_of_pos hqa,
          List.find?_cons_of_neg (p := fun x : CacheEntry V => x.key == k) _ ha]
        exact ih hfind
      · rw [List.filter_cons_of_neg hqa]
        exact ih hfind

/-- A read that already misses keeps missing after entries are
filtered out, as long as the filter only removes live entries (a
surviving expired duplicate keeps shadowing, and removed entries
cannot turn a miss into a hit). -/
theorem ttlGet_filter_pres_none {V : Type} (c : TTLCache V) (now : ℚ) (k : String)
    (q : CacheEntry V → Bool)
    (hq : ∀ e : CacheEntry V, decide (now < e.expires) = false → q e = true)
    (h : ttlGet c now k = none) :
    ttlGet ⟨c.maxsize, c.ttl, c.links.filter q⟩ now k = none := by
  rw [ttlGet] at h ⊢
  cases hfind : c.links.find? (fun x => x.key == k) with
  | none =>
    have hnone : (c.links.filter q).find? (fun x => x.key == k) = none := by
      rw [List.find?_eq_none] at hfind ⊢
      intro x hx
      exact hfind x (List.mem_of_mem_filter hx)
    rw [hnone]
  | some e =>
    rw [hfind] at h
    have h2 : (if now < e.expires then some e.value else none) = none := h
    have hexp : ¬ now < e.expires := by
      intro hlt
      rw [if_pos hlt] at h2
      cases h2
    rw [find?_filter_of_stable q hfind (hq e (decide_eq_false hexp))]
    simp [hexp]

/-- After `CacheManager.delete(name, k)`, a read of `k` from that
cache misses: either the live entry was just removed, or the key was
already missing or expired. -/
theorem cmGet_delete_none {V : Type} (m : CacheManager V) (now : ℚ) (name k : String) :
    cmGet (cmDelete m now name k).2 now name k = none := by
  cases hf : findCache m name with
  | none =>
    simp only [cmDelete, hf]
    rw [cmGet, hf]
  | some c =>
    simp only [cmDelete, hf]
    rw [cmGet, findCache_putCache m name c _ hf]
    rw [ttlDelete]
    by_cases hc : ttlContains c now k = true
    · rw [if_pos hc]
      unfold ttlGet
      dsimp only
      have hnone : (eraseKey c.links k).find? (fun x => x.key == k) = none := by
        rw [List.find?_eq_none]
        intro x hx
        rw [eraseKey] at hx
        have hp := List.of_mem_filter hx
        simpa using hp
      rw [hnone]
    · rw [if_neg hc]
      unfold ttlGet
      dsimp only
      rw [ttlContains] at hc
      cases hfind : c.links.find? (fun e => e.key == k) with
      | none => rfl
      | some e =>
        rw [hfind] at hc
        have hexp : ¬ now < e.expires := by simpa using hc
        simp [hexp]

/-- `invalidate_pattern(name, pat)` leaves no readable entry under
any key containing `pat`: live matching entries are removed, and
whatever matching entries remain are expired. -/
theorem cmGet_invalidate_pattern_none {V : Type} (m : CacheManager V) (now : ℚ)
    (name pat k : String) (hk : strContains k pat = true) :
    cmGet (cmInvalidatePattern m now name pat).2 now name k = none := by
  cases hf : findCache m name with
  | none =>
    simp only [cmInvalidatePattern, hf]
    rw [cmGet, hf]
  | some c =>
    simp only [cmInvalidatePattern, hf]
    rw [cmGet, findCache_putCache m name c _ hf]
    have hinv : (ttlInvalidate c now pat).2 =
        ⟨c.maxsize, c.ttl,
         c.links.filter (fun e => !(decide (now < e.expires) && strContains e.key pat))⟩ := rfl
    rw [hinv]
    unfold ttlGet
    dsimp only
    cases hfind : ((c.links.filter
        (fun e => !(decide (now < e.expires) && strContains e.key pat))).find?
        (fun e => e.key == k)) with
    | none => rfl
    | some e =>
      have hmem := List.mem_of_find?_eq_some hfind
      have hpred := List.of_mem_filter hmem
      have hkey : e.key = k := by
        have h2 := List.find?_some hfind
        simpa using h2
      rw [hkey, hk] at hpred
      have hexp : ¬ now < e.expires := by
        simpa using hpred
      simp [hexp]

/-- A read that misses keeps missing after `invalidate_pattern`,
which only removes entries. -/
theorem cmGet_invalidate_pres_none {V : Type} (m : CacheManager V) (now : ℚ)
    (name pat k : String) (h : cmGet m now name k = none) :
    cmGet (cmInvalidatePattern m now name pat).2 now name k = none := by
  rw [cmGet] at h
  cases hf : findCache m name with
  | none =>
    simp only [cmInvalidatePattern, hf]
    rw [cmGet, hf]
  | some c =>
    rw [hf] at h
    simp only [cmInvalidatePattern, hf]
    rw [cmGet, findCache_putCache m name c _ hf]
    have hinv : (ttlInvalidate c now pat).2 =
        ⟨c.maxsize, c.ttl,
         c.links.filter (fun e => !(decide (now < e.expires) && strContains e.key pat))⟩ := rfl
    rw [hinv]
    exact ttlGet_filter_pres_none c now k _ (by intro e he; simp [he]) h

/-- Claim C2 counterexample: under the update strategy, a state
change for `light.kitchen` (domain `light`) leaves the `states` key
`ambient_light` — which contains the substring `light` — cached,
because the code pattern-invalidates `group:light`, not `light`. -/
theorem state_changed_domain_invalidation_cex :
    strContains "ambient_light" "light" = true ∧
    domainOf "light.kitchen" = "light" ∧
    cmGet (handleStateChanged cexCfg cexMgr 0 "light.kitchen" (some 8)) 0 "states"
      "ambient_light" = some 7 := by
  refine ⟨by with_unfolding_all decide, by with_unfolding_all decide, ?_⟩
  with_unfolding_all decide

/-- Claim C2, amended: a state-changed event that is applied (non-empty
entity id carrying a new state, not filtered out) always leaves the
aggregate `get_all_states` entry unreadable and leaves no readable
`states` key containing `group:` followed by the entity's domain,
under either cache strategy. -/
theorem state_changed_cascade_invalidation {V : Type} (cfg : EventSettings)
    (m : CacheManager V) (now : ℚ) (entityId : String) (v : V)
    (hid : ¬ entityId = "")
    (hfilter : cfg.filterEnabled = false ∨ shouldProcessEntity cfg entityId = true) :
    cmGet (handleStateChanged cfg m now entityId (some v)) now "states"
      "get_all_states" = none ∧
    ∀ k2, strContains k2 ("group:" ++ domainOf entityId) = true →
      cmGet (handleStateChanged cfg m now entityId (some v)) now "states" k2 = none := by
  have hguard : (entityId == "") = false := by simpa using hid
  have hfilt : (cfg.filterEnabled && !shouldProcessEntity cfg entityId) = false := by
    rcases hfilter with h | h <;> simp [h]
  rw [handleStateChanged]
  simp only [hguard, hfilt, Bool.false_eq_true, if_false]
  constructor
  · exact cmGet_invalidate_pres_none _ now "states" _ "get_all_states"
      (cmGet_delete_none _ now "states" "get_all_states")
  · intro k2 hk2
    exact cmGet_invalidate_pattern_none _ now "states" _ k2 hk2

/-- Witness for the amended C2 at the concrete fixture: the aggregate
entry and the `group:light:all` view become unreadable. -/
theorem state_changed_cascade_invalidation_witness :
    (¬ "light.kitchen" = "") ∧
    (cexCfg.filterEnabled = false ∨ shouldProcessEntity cexCfg "light.kitchen" = true) ∧
    cmGet (handleStateChanged cexCfg cexMgr 0 "light.kitchen" (some 8)) 0 "states"
      "get_all_states" = none ∧
    cmGet (handleStateChanged cexCfg cexMgr 0 "light.kitchen" (some 8)) 0 "states"
      "group:light:all" = none := by
  have h := state_changed_cascade_invalidation cexCfg cexMgr 0 "light.kitchen" 8
    (by decide) (Or.inl rfl)
  exact ⟨by decide, Or.inl rfl, h.1, h.2 "group:light:all" (by with_unfolding_all decide)⟩

/-- One-step unfolding of `windowCount` at a cons cell. -/
theorem windowCount_cons (p : ℚ × Nat) (l : List (ℚ × Nat)) (now w : ℚ) :
    windowCount (p :: l) now w =
      (if now - w < p.1 then p.2 else 0) + windowCount l now w := by
  by_cases hp : now - w < p.1
  · simp [windowCount, List.filter_cons, hp]
  · simp [windowCount, List.filter_cons, hp]

/-- `windowCount` distributes over appends. -/
theorem windowCount_append (a b : List (ℚ × Nat)) (now w : ℚ) :
    windowCount (a ++ b) now w = windowCount a now w + windowCount b now w := by
  induction a with
  | nil => simp [windowCount]
  | cons p l ih => rw [List.cons_append, windowCount_cons, windowCount_cons, ih]; omega

/-- The windowed count never exceeds the total recorded count. -/
theorem windowCount_le_totalCount (s : List (ℚ × Nat)) (now w : ℚ) :
    windowCount s now w ≤ totalCount s := by
  induction s with
  | nil => simp [windowCount, totalCount]
  | cons p l ih =>
    rw [windowCount_cons]
    simp only [totalCount, List.map_cons, List.sum_cons] at ih ⊢
    by_cases hp : now - w < p.1 <;> simp [hp] <;> omega

/-- As the window slides forward past the last recorded timestamp,
the windowed count can only shrink. -/
theorem windowCount_mono (s : List (ℚ × Nat)) (t now w : ℚ) (h : t ≤ now) :
    windowCount s now w ≤ windowCount s t w := by
  induction s with
  | nil => simp [windowCount]
  | cons p l ih =>
    rw [windowCount_cons, windowCount_cons]
    by_cases hp : now - w < p.1
    · have hp2 : t - w < p.1 := by linarith
      simp [hp, hp2]; omega
    · by_cases hp2 : t - w < p.1 <;> simp [hp, hp2] <;> omega

/-- Purging entries at or before `t2 - w` does not change the count
over any window ending at `now ≥ t2`. -/
theorem windowCount_filter_eq (s : List (ℚ × Nat)) (t2 now w : ℚ) (h : t2 ≤ now) :
    windowCount (s.filter (fun p => decide (t2 - w < p.1))) now w =
      windowCount s now w := by
  induction s with
  | nil => simp
  | cons p l ih =>
    rw [List.filter_cons]
    by_cases hp2 : t2 - w < p.1
    · rw [if_pos (by simpa using hp2)]
      rw [windowCount_cons, windowCount_cons, ih]
    · rw [if_neg (by simpa using hp2)]
      rw [ih, windowCount_cons]
      have hp : ¬ now - w < p.1 := fun hc => hp2 (by linarith)
      simp [hp]

/-- The purged storage counts fully inside its own window. -/
theorem windowCount_filter_self (s : List (ℚ × Nat)) (now w : ℚ) :
    windowCount (s.filter (fun p => decide (now - w < p.1))) now w =
      totalCount (s.filter (fun p => decide (now - w < p.1))) := by
  rw [windowCount, List.filter_eq_self.mpr]
  · rfl
  · intro p hp
    exact (List.mem_filter.mp hp).2

/-- Incrementing the bucket of a timestamp absent from a list leaves
the list unchanged. -/
theorem bump_map_id (l : List (ℚ × Nat)) (t : ℚ)
    (h : ∀ q ∈ l, (q.1 == t) = false) :
    l.map (fun p => if p.1 == t then (p.1, p.2 + 1) else p) = l := by
  induction l with
  | nil => rfl
  | cons p l ih =>
    have hp := h p (List.mem_cons_self p l)
    rw [List.map_cons, hp]
    simp only [Bool.false_eq_true, if_false]
    rw [ih (fun q hq => h q (List.mem_cons_of_mem p hq))]

/-- `bumpBucket` preserves the list of bucket timestamps or appends
the new one; in particular every resulting timestamp is an old one
or the bumped one. -/
theorem bump_mem_fst (s : List (ℚ × Nat)) (t : ℚ) :
    ∀ p ∈ bumpBucket s t, p.1 ∈ s.map Prod.fst ∨ p.1 = t := by
  intro p hp
  rw [bumpBucket] at hp
  by_cases hs : s.any (fun q => q.1 == t) = true
  · rw [if_pos hs] at hp
    obtain ⟨q, hq, hq2⟩ := List.mem_map.mp hp
    by_cases hqt : (q.1 == t) = true
    · rw [if_pos hqt] at hq2
      left
      rw [← hq2]
      exact List.mem_map.mpr ⟨q, hq, rfl⟩
    · rw [if_neg hqt] at hq2
      left
      rw [← hq2]
      exact List.mem_map.mpr ⟨q, hq, rfl⟩
  · rw [if_neg hs] at hp
    rcases List.mem_append.mp hp with h1 | h1
    · exact Or.inl (List.mem_map_of_mem Prod.fst h1)
    · right
      rw [List.mem_singleton.mp h1]

/-- `bumpBucket` keeps bucket timestamps duplicate-free. -/
theorem bump_nodup (s : List (ℚ × Nat)) (t : ℚ)
    (h : (s.map Prod.fst).Nodup) : ((bumpBucket s t).map Prod.fst).Nodup := by
  rw [bumpBucket]
  by_cases hs : s.any (fun q => q.1 == t) = true
  · rw [if_pos hs]
    have hfst : (s.map (fun p => if p.1 == t then (p.1, p.2 + 1) else p)).map Prod.fst =
        s.map Prod.fst := by
      rw [List.map_map]
      refine List.map_congr_left ?_
      intro p hp
      simp only [Function.comp_apply]
      by_cases hpt : (p.1 == t) = true
      · rw [if_pos hpt]
      · rw [if_neg hpt]
    rw [hfst]
    exact h
  · rw [if_neg hs]
    rw [List.map_append]
    have hnot : t ∉ s.map Prod.fst := by
      intro hmem
      obtain ⟨q, hq, hq2⟩ := List.mem_map.mp hmem
      have := List.any_eq_false.mp (Bool.eq_false_iff.mpr hs) q hq
      rw [hq2] at this
      simp at this
    simp [List.nodup_append, h, hnot]

/-- Bumping one bucket raises the total recorded count by exactly
one (duplicate-free timestamps). -/
theorem totalCount_bump (s : List (ℚ × Nat)) (t : ℚ)
    (h : (s.map Prod.fst).Nodup) :
    totalCount (bumpBucket s t) = totalCount s + 1 := by
  induction s with
  | nil => simp [bumpBucket, totalCount]
  | cons p l ih =>
    rw [bumpBucket]
    by_cases hp : (p.1 == t) = true
    · rw [if_pos (by simp [List.any_cons, hp])]
      rw [List.map_cons, if_pos hp]
      have hl : ∀ q ∈ l, (q.1 == t) = false := by
        intro q hq
        have hne : q.1 ≠ p.1 := by
          intro hEq
          exact (List.nodup_cons.mp h).1 (hEq ▸ List.mem_map_of_mem Prod.fst hq)
        have ht : p.1 = t := beq_iff_eq.mp hp
        simpa [ht] using hne
      rw [bump_map_id l t hl]
      simp [totalCount]
      omega
    · rw [List.any_cons]
      rw [Bool.eq_false_iff.mpr hp]
      simp only [Bool.false_or]
      by_cases hl : l.any (fun q => q.1 == t) = true
      · rw [hl]
        simp only [if_true]
        rw [List.map_cons, Bool.eq_false_iff.mpr hp]
        simp only [Bool.false_eq_true, if_false]
        have ihl := ih (List.nodup_cons.mp h).2
        rw [bumpBucket, if_pos hl] at ihl
        simp only [totalCount, List.map_cons, List.sum_cons] at *
        omega
      · rw [Bool.eq_false_iff.mpr hl]
        simp only [Bool.false_eq_true, if_false]
        simp [totalCount]
        omega

/-- Bumping one bucket raises any windowed count by at most one. -/
theorem windowCount_bump_le (s : List (ℚ × Nat)) (t now w : ℚ)
    (h : (s.map Prod.fst).Nodup) :
    windowCount (bumpBucket s t) now w ≤ windowCount s now w + 1 := by
  induction s with
  | nil =>
    rw [bumpBucket]
    simp only [List.any_nil, Bool.false_eq_true, if_false, List.nil_append]
    rw [windowCount_cons]
    by_cases hp : now - w < t <;> simp [windowCount, hp]
  | cons p l ih =>
    rw [bumpBucket]
    by_cases hp : (p.1 == t) = true
    · rw [if_pos (by simp [List.any_cons, hp])]
      rw [List.map_cons, if_pos hp]
      have hl : ∀ q ∈ l, (q.1 == t) = false := by
        intro q hq
        have hne : q.1 ≠ p.1 := by
          intro hEq
          exact (List.nodup_cons.mp h).1 (hEq ▸ List.mem_map_of_mem Prod.fst hq)
        have ht : p.1 = t := beq_iff_eq.mp hp
        simpa [ht] using hne
      rw [bump_map_id l t hl]
      rw [windowCount_cons, windowCount_cons]
      by_cases hq : now - w < p.1
      · simp only [hq, if_true]
        omega
      · simp only [hq, if_false]
        omega
    · rw [List.any_cons, Bool.eq_false_iff.mpr hp]
      simp only [Bool.false_or]
      by_cases hl : l.any (fun q => q.1 == t) = true
      · rw [hl]
        simp only [if_true]
        rw [List.map_cons, Bool.eq_false_iff.mpr hp]
        simp only [Bool.false_eq_true, if_false]
        have ihl := ih (List.nodup_cons.mp h).2
        rw [bumpBucket, if_pos hl] at ihl
        rw [windowCount_cons, windowCount_cons]
        omega
      · rw [Bool.eq_false_iff.mpr hl]
        simp only [Bool.false_eq_true, if_false]
        rw [windowCount_append, windowCount_cons, windowCount_cons]
        by_cases hq : now - w < t
        · simp only [hq, if_true, windowCount, List.filter_nil, List.map_nil,
            List.sum_nil]
          omega
        · simp only [hq, if_false, windowCount, List.filter_nil, List.map_nil,
            List.sum_nil]
          omega

/-- Running a concatenation of call batches runs them in sequence,
concatenating the verdicts. -/
theorem runCalls_append (rl : RateLimiter) (a b : List ℚ) (s : List (ℚ × Nat)) :
    runCalls rl (a ++ b) s =
      ((runCalls rl a s).1 ++ (runCalls rl b (runCalls rl a s).2).1,
       (runCalls rl b (runCalls rl a s).2).2) := by
  induction a generalizing s with
  | nil => simp [runCalls]
  | cons t ts ih => simp [runCalls, ih]

/-- Inductive invariant of one key's rate-limit storage: reachable
storages have duplicate-free bucket timestamps, all at or before the
latest call time, and their windowed count at the latest call time
never exceeds the maximum. -/
theorem rlreach_invariant (rl : RateLimiter) (s : List (ℚ × Nat)) (t : ℚ)
    (h : RLReach rl s t) :
    ((s.map Prod.fst).Nodup ∧ (∀ p ∈ s, p.1 ≤ t) ∧
      windowCount s t rl.windowSeconds ≤ rl.maxRequests) := by
  induction h with
  | init t => simp [windowCount]
  | @step s t t2 hreach hle ih =>
    obtain ⟨hnodup, hbound, hwc⟩ := ih
    have hclean_nodup : ((s.filter
        (fun p => decide (t2 - rl.windowSeconds < p.1))).map Prod.fst).Nodup :=
      ((List.filter_sublist s).map Prod.fst).nodup hnodup
    have hclean_bound : ∀ p ∈ s.filter (fun p => decide (t2 - rl.windowSeconds < p.1)),
        p.1 ≤ t2 := by
      intro p hp
      exact le_trans (hbound p (List.mem_of_mem_filter hp)) hle
    have hclean_wc : windowCount (s.filter
        (fun p => decide (t2 - rl.windowSeconds < p.1))) t2 rl.windowSeconds ≤
        rl.maxRequests := by
      rw [windowCount_filter_eq s t2 t2 rl.windowSeconds (le_refl t2)]
      exact le_trans (windowCount_mono s t t2 rl.windowSeconds hle) hwc
    by_cases hfull : rl.maxRequests ≤
        (((s.filter (fun p => decide (t2 - rl.windowSeconds < p.1))).map Prod.snd).sum)
    · have hstep : (isAllowed rl s t2).2 =
          s.filter (fun p => decide (t2 - rl.windowSeconds < p.1)) := by
        simp only [isAllowed]
        rw [if_pos hfull]
      rw [hstep]
      exact ⟨hclean_nodup, hclean_bound, hclean_wc⟩
    · have hstep : (isAllowed rl s t2).2 =
          bumpBucket (s.filter (fun p => decide (t2 - rl.windowSeconds < p.1))) t2 := by
        simp only [isAllowed]
        rw [if_neg hfull]
      rw [hstep]
      refine ⟨bump_nodup _ t2 hclean_nodup, ?_, ?_⟩
      · intro p hp
        rcases bump_mem_fst _ t2 p hp with h1 | h1
        · obtain ⟨q, hq, hq2⟩ := List.mem_map.mp h1
          rw [← hq2]
          exact hclean_bound q hq
        · rw [h1]
      · have h1 := windowCount_bump_le
          (s.filter (fun p => decide (t2 - rl.windowSeconds < p.1))) t2 t2
          rl.windowSeconds hclean_nodup
        have h2 := windowCount_filter_self s t2 rl.windowSeconds
        have h3 : totalCount (s.filter (fun p => decide (t2 - rl.windowSeconds < p.1))) <
            rl.maxRequests := by
          rw [totalCount]
          omega
        omega

/-- When every pending arrival lies within one window of every
recorded bucket and of every other pending arrival, and the recorded
plus pending totals fit under the maximum, every pending call is
allowed; the storage keeps duplicate-free timestamps drawn from the
old ones and the arrivals, and grows by exactly the number of
calls. -/
theorem runCalls_all_allowed (rl : RateLimiter) (rem : List ℚ) :
    ∀ (s : List (ℚ × Nat)),
      (s.map Prod.fst).Nodup →
      (∀ a, (a ∈ s.map Prod.fst ∨ a ∈ rem) → ∀ b ∈ rem, b - rl.windowSeconds < a) →
      totalCount s + rem.length ≤ rl.maxRequests →
      (runCalls rl rem s).1 = List.replicate rem.length true ∧
      totalCount (runCalls rl rem s).2 = totalCount s + rem.length ∧
      ((runCalls rl rem s).2.map Prod.fst).Nodup ∧
      (∀ x ∈ (runCalls rl rem s).2.map Prod.fst,
        x ∈ s.map Prod.fst ∨ x ∈ rem) := by
  induction rem with
  | nil =>
    intro s h1 h2 h3
    exact ⟨rfl, by simp [runCalls], h1, fun x hx => Or.inl hx⟩
  | cons r rem2 ih =>
    intro s hnodup hwin hcount
    have hkeep : s.filter (fun p => decide (r - rl.windowSeconds < p.1)) = s := by
      apply List.filter_eq_self.mpr
      intro p hp
      have := hwin p.1 (Or.inl (List.mem_map_of_mem Prod.fst hp)) r
        (List.mem_cons_self r rem2)
      simpa using this
    have hcur : totalCount s < rl.maxRequests := by
      simp only [List.length_cons] at hcount
      omega
    have hstep : isAllowed rl s r = (true, bumpBucket s r) := by
      simp only [isAllowed, hkeep]
      rw [if_neg (by rw [← totalCount]; omega)]
    have hih := ih (bumpBucket s r) (bump_nodup s r hnodup)
      (by
        intro a ha b hb
        have hb2 : b ∈ r :: rem2 := List.mem_cons_of_mem r hb
        rcases ha with h1 | h1
        · obtain ⟨q, hq, hq2⟩ := List.mem_map.mp h1
          rcases bump_mem_fst s r q hq with h2 | h2
          · exact hwin a (Or.inl (hq2 ▸ h2)) b hb2
          · exact hwin a (Or.inr (by rw [← hq2, h2]; exact List.mem_cons_self r rem2)) b hb2
        · exact hwin a (Or.inr (List.mem_cons_of_mem r h1)) b hb2)
      (by
        rw [totalCount_bump s r hnodup]
        simp only [List.length_cons] at hcount
        omega)
    obtain ⟨hres, htot, hnd, hmem⟩ := hih
    refine ⟨?_, ?_, ?_, ?_⟩
    case refine_3 =>
      simp only [runCalls, hstep]
      exact hnd
    · simp only [runCalls, hstep, hres, List.length_cons, List.replicate_succ]
    · simp only [runCalls, hstep, htot, List.length_cons]
      rw [totalCount_bump s r hnodup]
      omega
    · intro x hx
      simp only [runCalls, hstep] at hx
      rcases hmem x hx with h1 | h1
      · obtain ⟨q, hq, hq2⟩ := List.mem_map.mp h1
        rcases bump_mem_fst s r q hq with h2 | h2
        · exact Or.inl (hq2 ▸ h2)
        · exact Or.inr (by rw [← hq2, h2]; exact List.mem_cons_self r rem2)
      · exact Or.inr (List.mem_cons_of_mem r h1)

/-- Claim C5: for one admission key, `max` requests arriving within
one window of each other are all allowed and a further request still
inside that window is refused, while a request arriving a full
window after all of them is allowed again; moreover, for every
reachable storage and every instant at or after its last call, the
recorded requests inside the trailing window never exceed the
maximum. -/
theorem rate_limiter_sliding_window (maxR : Nat) (w : ℚ) (ts : List ℚ) (tq tr : ℚ)
    (hmax : 1 ≤ maxR)
    (hlen : ts.length = maxR)
    (hwin : ∀ a ∈ ts ++ [tq], ∀ b ∈ ts ++ [tq], b - w < a)
    (hrec : ∀ a ∈ ts ++ [tq], a ≤ tr - w) :
    (runCalls ⟨maxR, w⟩ (ts ++ [tq, tr]) []).1 =
      List.replicate maxR true ++ [false, true] ∧
    (∀ (s : List (ℚ × Nat)) (t0 now : ℚ), RLReach ⟨maxR, w⟩ s t0 → t0 ≤ now →
      windowCount s now w ≤ maxR) := by
  constructor
  · obtain ⟨hres1, htot1, hnodup1, hmem1⟩ := runCalls_all_allowed ⟨maxR, w⟩ ts []
      (by simp)
      (by
        intro a ha b hb
        rcases ha with h1 | h1
        · simp at h1
        · exact hwin a (List.mem_append_left _ h1) b (List.mem_append_left _ hb))
      (by simp [totalCount, hlen])
    set s1 := (runCalls ⟨maxR, w⟩ ts []).2 with hs1
    have hmem2 : ∀ x ∈ s1.map Prod.fst, x ∈ ts := by
      intro x hx
      rcases hmem1 x hx with h | h
      · simp at h
      · exact h
    have htot2 : totalCount s1 = maxR := by
      rw [htot1]
      simp [totalCount, hlen]
    have hkeepq : s1.filter (fun p => decide (tq - w < p.1)) = s1 := by
      apply List.filter_eq_self.mpr
      intro p hp
      have := hwin p.1
        (List.mem_append_left _ (hmem2 p.1 (List.mem_map_of_mem Prod.fst hp)))
        tq (List.mem_append_right _ (List.mem_singleton_self tq))
      simpa using this
    have hdeny : isAllowed ⟨maxR, w⟩ s1 tq = (false, s1) := by
      simp only [isAllowed, hkeepq]
      have hge : maxR ≤ (s1.map Prod.snd).sum := le_of_eq htot2.symm
      rw [if_pos hge]
    have hpurge : s1.filter (fun p => decide (tr - w < p.1)) = [] := by
      rw [List.filter_eq_nil_iff]
      intro p hp
      have h1 := hrec p.1
        (List.mem_append_left _ (hmem2 p.1 (List.mem_map_of_mem Prod.fst hp)))
      simp only [decide_eq_true_eq]
      linarith
    have hallow : isAllowed ⟨maxR, w⟩ s1 tr = (true, [(tr, 1)]) := by
      simp only [isAllowed, hpurge]
      rw [if_neg (by simp; omega)]
      simp [bumpBucket]
    rw [runCalls_append, hres1, ← hs1]
    have hlast : runCalls ⟨maxR, w⟩ [tq, tr] s1 = ([false, true], [(tr, 1)]) := by
      simp [runCalls, hdeny, hallow]
    rw [hlast, hlen]
  · intro s t0 now hreach hle
    have h := rlreach_invariant ⟨maxR, w⟩ s t0 hreach
    exact le_trans (windowCount_mono s t0 now w hle) h.2.2

/-- Witness for C5: maximum 2, window 10, calls at 0 and 1 (allowed),
a third at 2 (refused), a fourth at 12 (allowed again). -/
theorem rate_limiter_sliding_window_witness :
    ((1 : Nat) ≤ 2 ∧ ([0, 1] : List ℚ).length = 2) ∧
    (runCalls ⟨2, 10⟩ (([0, 1] : List ℚ) ++ [2, 12]) []).1 =
      List.replicate 2 true ++ [false, true] := by
  refine ⟨⟨by decide, rfl⟩, ?_⟩
  exact (rate_limiter_sliding_window 2 10 [0, 1] 2 12 (by decide) rfl
    (by with_unfolding_all decide) (by with_unfolding_all decide)).1

end HABridge
